import Mathlib

/-!
Verification development for the terminal/console session engine in
`src/cpp/session/SessionConsoleProcess.cpp`.

Each definition is a shallow embedding of the corresponding C++ function:
pure functions become Lean functions, stateful member functions become
explicit state-passing functions over structures that carry the member
variables they touch, and externally observable effects (flushing output,
emitting client events, writing to stdin) are recorded in instrumentation
fields of the state.  Machine strings are modelled as `List Char`
(byte-per-char ASCII use of `std::string`); wall-clock instants as `Int`
milliseconds.
-/

/- ===================================================================
   Output Pipeline & Prompt Classifier
   (`ConsoleProcess::regexInit`, `ConsoleProcess::maybeConsolePrompt`,
    `ConsoleProcess::handleConsolePrompt`)
   =================================================================== -/

/-- Regex `controlCharsPattern_ = boost::regex("[\r\b]")` used with `regex_search`:
a string matches iff it contains a carriage return (0x0D) or a backspace
(0x08) anywhere. -/
def hasControlChars (s : List Char) : Bool :=
  s.any (fun c => c = '\x0d' || c = '\x08')

/-- The character class `[\W_]` of `promptPattern_`: `\W` is the complement
of the word class `[A-Za-z0-9_]`, so `[\W_]` matches exactly the
non-alphanumeric characters (underscore included). -/
def promptSepChar (c : Char) : Bool :=
  !(c.isAlpha || c.isDigit)

/-- Group `( +)`: a run of space characters, all equal to 0x20. -/
def allSpaces : List Char → Bool
  | [] => true
  | c :: cs => c = ' ' && allSpaces cs

/-- Matches `[\W_]( +)$` against a suffix: one non-alphanumeric character
followed by a nonempty run of spaces reaching the end of the string. -/
def promptTail : List Char → Bool
  | [] => false
  | c :: rest => promptSepChar c && !rest.isEmpty && allSpaces rest

/-- Helper for `promptMatch`: after consuming at least one character into
the `(.+)` group, some proper suffix must match `[\W_]( +)$`. -/
def promptMatchAux : List Char → Bool
  | [] => false
  | _ :: rest => promptTail rest || promptMatchAux rest

/-- Regex `promptPattern_ = boost::regex("^(.+)[\W_]( +)$")` used with
`regex_match` (whole-string match): the string splits as a nonempty prefix
(`.+`, any characters), one non-alphanumeric character (`[\W_]`), and a
nonempty run of spaces ending the string.  Boost's `.` matches every
character under the default match flags. -/
def promptMatch (s : List Char) : Bool :=
  promptMatchAux s

/-- Observable outcome of `ConsoleProcess::maybeConsolePrompt`: the list of
arguments passed to `enqueOutputEvent` (flush-as-output calls), in call
order, and whether `handleConsolePrompt` was invoked. -/
structure PromptClassification where
  flushed : List (List Char)
  promptHandled : Bool
deriving DecidableEq, Repr

/-- Embedding of `ConsoleProcess::maybeConsolePrompt` (lines 695-711).  Note the source
has two independent `if` statements: the control-character check flushes
but does not return, and only the prompt-pattern check carries an `else`. -/
def maybeConsolePrompt (output : List Char) : PromptClassification :=
  let firstFlush : List (List Char) :=
    if hasControlChars output then [output] else []
  if !(promptMatch output) then ⟨firstFlush ++ [output], false⟩
  else ⟨firstFlush, true⟩

/-- Input item as exposed to the sequencer and prompt handler.

Modelled from the spec: the `Input` structure is declared in
`SessionConsoleProcess.hpp`, which is not part of the sources; the spec's
data model gives it a text-or-interrupt payload, a sequence number (or a
sentinel), and an echo flag. -/
structure Input where
  interrupt : Bool
  text : List Char
  echoInput : Bool
  sequence : Int
deriving DecidableEq, Repr

/-- Outcome of `ConsoleProcess::handleConsolePrompt` (lines 713-739). -/
inductive PromptOutcome where
  | handlerEnqueued (response : Input)
  | terminated
  | promptEvent
deriving DecidableEq, Repr

/-- Embedding of `ConsoleProcess::handleConsolePrompt`: a registered custom handler gets
first refusal; a handled prompt either enqueues the handler's response or
terminates the session (empty response); otherwise a prompt client event is
emitted.  The handler is modelled as returning `(handled, response?)`. -/
def handleConsolePrompt (onPrompt : Option (List Char → Bool × Option Input))
    (prompt : List Char) : PromptOutcome :=
  match onPrompt with
  | some h =>
    match h prompt with
    | (true, some response) => PromptOutcome.handlerEnqueued response
    | (true, none) => PromptOutcome.terminated
    | (false, _) => PromptOutcome.promptEvent
  | none => PromptOutcome.promptEvent

/-- The prompt shape exactly as the spec words it (refinement reference,
deliberately written from the spec, not from the source): "one-or-more
non-whitespace characters followed by one-or-more trailing spaces at end of
string". -/
def specPromptShape (s : List Char) : Bool :=
  match s.reverse with
  | [] => false
  | c :: _ =>
    c = ' ' &&
      (match s.reverse.dropWhile (fun d => d = ' ') with
       | [] => false
       | d :: _ => !d.isWhitespace)

/- ===================================================================
   Input Sequencer
   (`ConsoleProcess::enqueInput`, `ConsoleProcess::dequeInput`,
    constructor initialisation of `lastInputSequence_`)
   =================================================================== -/

/-- Modelled from the spec: the sentinel and threshold constants are
declared in `SessionConsoleProcess.hpp`, which is not part of the sources.
The spec fixes their semantics: `Unordered` ("ignore") is the value the
constructor stores in `lastInputSequence_` and the value a flush barrier
resets it to, and ordered items numbered from 1 must dequeue immediately
(spec P1, `Head.sequence == nextExpected+1`), so the `Unordered` sentinel
sits at 0 relative to client sequences starting at 1. -/
def kIgnoreSequence : Int := 0

/-- Modelled from the spec: the `FlushBarrier` sentinel, a second reserved
value distinct from `kIgnoreSequence` and from every client sequence. -/
def kFlushSequence : Int := -1

/-- Modelled from the spec: the auto-flush threshold ("default ~40"). -/
def kAutoFlushLength : Nat := 40

/-- The sequencer state: the deque `inputQueue_` and the counter
`lastInputSequence_`, the two members guarded by `inputQueueMutex_`. -/
structure InputQueueState where
  inputQueue : List Input
  lastInputSequence : Int
deriving DecidableEq, Repr

/-- Constructor state: empty queue, `lastInputSequence_(kIgnoreSequence)`. -/
def initialInputState : InputQueueState :=
  ⟨[], kIgnoreSequence⟩

/-- Assignment `(*it).sequence = kIgnoreSequence` applied to one queued item. -/
def setIgnore (i : Input) : Input :=
  { i with sequence := kIgnoreSequence }

/-- The ordered-insert loop of `enqueInput`: walk the queue and insert the
item before the first entry with a strictly larger sequence. -/
def insertOrdered (input : Input) : List Input → List Input
  | [] => [input]
  | i :: rest =>
    if input.sequence < i.sequence then input :: i :: rest
    else i :: insertOrdered input rest

/-- Embedding of `ConsoleProcess::enqueInput` (lines 310-348). -/
def enqueInput (st : InputQueueState) (input : Input) : InputQueueState :=
  if input.sequence = kIgnoreSequence then
    { st with inputQueue := st.inputQueue ++ [input] }
  else if input.sequence = kFlushSequence then
    ⟨(st.inputQueue ++ [input]).map setIgnore, kIgnoreSequence⟩
  else
    { st with inputQueue := insertOrdered input st.inputQueue }

/-- Enqueue a batch of arrivals in their arrival order. -/
def enqueAll (st : InputQueueState) (items : List Input) : InputQueueState :=
  items.foldl enqueInput st

/-- Embedding of `ConsoleProcess::dequeInput` (lines 353-396).  `none` is the "empty
Input" result (queue empty, or an unresolved gap below the auto-flush
threshold).  In the auto-flush branch the loop assigns
`lastInputSequence_ = (*it).sequence` for every queued item in order, so
the final value is the sequence of the last queued item; that walk is the
`foldl` below. -/
def dequeInput (st : InputQueueState) : Option Input × InputQueueState :=
  match st.inputQueue with
  | [] => (none, st)
  | input :: rest =>
    if input.sequence = kIgnoreSequence ∨ input.sequence = kFlushSequence then
      (some input, ⟨rest, st.lastInputSequence⟩)
    else if input.sequence = st.lastInputSequence + 1 then
      (some input, ⟨rest, st.lastInputSequence + 1⟩)
    else if kAutoFlushLength ≤ (input :: rest).length then
      (some (setIgnore input),
       ⟨rest.map setIgnore,
        (input :: rest).foldl (fun _ i => i.sequence) st.lastInputSequence⟩)
    else (none, st)

/-- Repeatedly dequeue, collecting the returned items, stopping at the
first empty result; `fuel` bounds the number of steps. -/
def drainFuel : Nat → InputQueueState → List Input
  | 0, _ => []
  | fuel + 1, st =>
    match dequeInput st with
    | (none, _) => []
    | (some i, st2) => i :: drainFuel fuel st2

/-- The `while (!input.empty())` loop of `processQueuedInput`: every
successful dequeue pops exactly one queue entry, so the queue length
bounds the number of iterations. -/
def drainAll (st : InputQueueState) : List Input :=
  drainFuel st.inputQueue.length st

/-- An ordered input item carrying a text payload and sequence `n`. -/
def ordItem (t : List Char) (n : Nat) : Input :=
  ⟨false, t, true, (n : Int)⟩

/- ===================================================================
   Private Sampling Protocol
   (`ConsoleProcess::privateCommandLoop`, the sampling-related part of
    `ConsoleProcess::processQueuedInput`)
   =================================================================== -/

/-- kPrivateCommandDelay = 3000 ms: minimum delay between private command
executions. -/
def kPrivateCommandDelay : Int := 3000

/-- kWaitForCommandDelay = 1500 ms: delay after a command starts before a
private command may be considered. -/
def kWaitForCommandDelay : Int := 1500

/-- A `boost::posix_time::ptime` as the sampling code uses it: either the
special value `not_a_date_time`, a finite instant (milliseconds), or the
special value `pos_infin` (assigned on write failure to disable sampling). -/
inductive PTime where
  | notADateTime
  | fin (t : Int)
  | posInfin
deriving DecidableEq, Repr

/-- Predicate `ptime::is_not_a_date_time()`. -/
def PTime.isNotADateTime : PTime → Bool
  | .notADateTime => true
  | _ => false

/-- Comparison `fin a <= p` for the comparisons `currentTime - delay <= member`:
a finite instant is `<=` a finite instant by integer comparison and `<=`
`pos_infin` always.  Both call sites are guarded by an
`is_not_a_date_time()` check on the member, so the `notADateTime` row is
never exercised. -/
def finLe (a : Int) : PTime → Bool
  | .fin b => a ≤ b
  | .posInfin => true
  | .notADateTime => false

/-- Comparison `p > q` for `lastPrivateCommand_ > lastEnterTime_`: `pos_infin` is
greater than every finite instant, finite instants compare by integer
comparison.  The left side is guarded non-`notADateTime`; the right side
is finite whenever the gate is reached. -/
def ptimeGT : PTime → PTime → Bool
  | .posInfin, .fin _ => true
  | .fin a, .fin b => b < a
  | _, _ => false

/-- The sampling-related members of `ConsoleProcess`: the preconditions
read from `procInfo_` (`getTrackEnv`, `getHasChildProcs`), the atomic
in-progress flag `privateCommandLoop_`, and the debounce state guarded by
`inputQueueMutex_`. -/
structure PrivState where
  trackEnv : Bool
  hasChildProcs : Bool
  privateCommandLoopFlag : Bool
  pendingCommand : Bool
  lastEnterTime : PTime
  lastPrivateCommand : PTime
deriving DecidableEq, Repr

/-- Result of one `privateCommandLoop` call: the returned `bool`, whether
the capture command was written to stdin (`ops.writeToStdin` invoked —
a sample attempt), and the state afterwards. -/
structure PrivResult where
  ret : Bool
  attempted : Bool
  st : PrivState
deriving DecidableEq, Repr

/-- Embedding of `ConsoleProcess::privateCommandLoop` (lines 429-490); `writeFails`
says whether the one `ops.writeToStdin(captureEnvironmentCommand_, false)`
call would return an error. -/
def privateCommandLoop (st : PrivState) (currentTime : Int)
    (writeFails : Bool) : PrivResult :=
  if !st.trackEnv || st.hasChildProcs then ⟨false, false, st⟩
  else if st.privateCommandLoopFlag then ⟨true, false, st⟩
  else if st.pendingCommand || st.lastEnterTime.isNotADateTime then
    ⟨false, false, st⟩
  else if finLe (currentTime - kWaitForCommandDelay) st.lastEnterTime then
    ⟨false, false, st⟩
  else if !st.lastPrivateCommand.isNotADateTime &&
          finLe (currentTime - kPrivateCommandDelay) st.lastPrivateCommand then
    ⟨false, false, st⟩
  else if !st.lastPrivateCommand.isNotADateTime &&
          ptimeGT st.lastPrivateCommand st.lastEnterTime then
    ⟨false, false, st⟩
  else
    let st1 : PrivState :=
      { st with lastPrivateCommand := PTime.fin currentTime,
                privateCommandLoopFlag := true }
    if writeFails then
      ⟨false, true,
       { st1 with privateCommandLoopFlag := false,
                  lastPrivateCommand := PTime.posInfin }⟩
    else ⟨true, true, st1⟩

/-- The effect of processing one queued text input in
`ConsoleProcess::processQueuedInput` (lines 556, 572-578) on the sampling
state: `pendingCommand_ = true`, then if the text is nonempty and ends in
a carriage return, `lastEnterTime_ = now()` and `pendingCommand_ = false`. -/
def submitText (st : PrivState) (text : List Char) (currentTime : Int) :
    PrivState :=
  let st1 := { st with pendingCommand := true }
  if text.getLast? = some ('\x0d') then
    { st1 with lastEnterTime := PTime.fin currentTime, pendingCommand := false }
  else st1

/- ===================================================================
   Session State Machine: start
   (`ConsoleProcess::start`, lines 284-308)
   =================================================================== -/

/-- The members of `ConsoleProcess` that `start()` reads and writes, with
instrumentation: `supervisorCalls` counts invocations of
`runCommand`/`runProgram`/`runTerminal`, `launches` counts the invocations
that returned no error (the process actually launching). -/
structure StartState where
  started : Bool
  zombie : Bool
  supervisorCalls : Nat
  launches : Nat
deriving DecidableEq, Repr

/-- A fresh, never-started, non-zombie session. -/
def initialStartState : StartState :=
  ⟨false, false, 0, 0⟩

/-- Embedding of `ConsoleProcess::start`: no-op `Success()` when already started or
zombie; otherwise delegate to the process supervisor (`launchErr` is the
`Error` the supervisor returns, `none` for success), mark started only on
success, and return the supervisor's error unchanged. -/
def start (st : StartState) (launchErr : Option Nat) :
    Option Nat × StartState :=
  if st.started || st.zombie then (none, st)
  else
    let st1 := { st with supervisorCalls := st.supervisorCalls + 1 }
    match launchErr with
    | some e => (some e, st1)
    | none => (none, { st1 with started := true, launches := st1.launches + 1 })

/-- Any number of `start()` calls with the given supervisor outcomes. -/
def startMany (st : StartState) (errs : List (Option Nat)) : StartState :=
  errs.foldl (fun s e => (start s e).2) st

/- ===================================================================
   Subprocess / cwd notifications
   (`ConsoleProcess::onHasSubprocs` lines 757-770,
    `ConsoleProcess::reportCwd` lines 772-787)
   =================================================================== -/

/-- The members these two callbacks touch: the stored child-process value
and cwd in `procInfo_`, the `childProcsSent_` flag, plus instrumentation
counting emitted `kTerminalSubprocs` and `kTerminalCwd` client events and
`saveConsoleProcesses()` calls. -/
structure SubprocsState where
  hasChildProcs : Bool
  childProcsSent : Bool
  cwd : List Char
  subprocsEvents : Nat
  cwdEvents : Nat
  saves : Nat
deriving DecidableEq, Repr

/-- Embedding of `ConsoleProcess::onHasSubprocs`: emit a subprocs event only if the
value changed or none was ever recorded as sent; remember it was sent. -/
def onHasSubprocs (st : SubprocsState) (hasSubprocs : Bool) : SubprocsState :=
  if hasSubprocs ≠ st.hasChildProcs || !st.childProcsSent then
    { st with hasChildProcs := hasSubprocs,
              subprocsEvents := st.subprocsEvents + 1,
              childProcsSent := true }
  else st

/-- Embedding of `ConsoleProcess::reportCwd`: on a changed working directory, store it,
emit a cwd event, set `childProcsSent_ = true`, and persist. -/
def reportCwd (st : SubprocsState) (cwd : List Char) : SubprocsState :=
  if st.cwd ≠ cwd then
    { st with cwd := cwd,
              cwdEvents := st.cwdEvents + 1,
              childProcsSent := true,
              saves := st.saves + 1 }
  else st

/- ===================================================================
   Output pipeline delivery
   (`ConsoleProcess::enqueOutputEvent`, lines 620-657)
   =================================================================== -/

/-- The channel the Negotiator selected. -/
inductive ChannelMode where
  | rpc
  | websocket
deriving DecidableEq, Repr

/-- One line-split step for `trimLeadingLines`. -/
def lineStep (c : Char) (acc : List (List Char)) : List (List Char) :=
  if c = '\x0a' then [] :: acc
  else
    match acc with
    | a :: rest => (c :: a) :: rest
    | [] => [[c]]

/-- Split a buffer into its newline-separated lines. -/
def splitLines (s : List Char) : List (List Char) :=
  s.foldr lineStep [[]]

/-- Rejoin lines with newlines. -/
def joinLines : List (List Char) → List Char
  | [] => []
  | [a] => a
  | a :: rest => a ++ '\x0a' :: joinLines rest

/-- Modelled from the spec: `string_utils::trimLeadingLines` lives in the
core string utilities, outside the sources; the spec says output is
truncated to the configured maximum visible-line count before delivery, so
the model keeps the trailing `maxLines` lines. -/
def trimLeadingLines (maxLines : Nat) (s : List Char) : List Char :=
  let ls := splitLines s
  if maxLines < ls.length then joinLines (ls.drop (ls.length - maxLines))
  else s

/-- The members `enqueOutputEvent` touches, with instrumentation: the
scrollback buffer held by `procInfo_`, the alternate-screen status, the
negotiated channel, the texts sent over the websocket, the (trimmed)
outputs enqueued as RPC client events, and `saveConsoleProcesses()`
calls.  `appendToOutputBuffer` itself lives in `ConsoleProcessInfo`
(outside the sources); per the spec it appends to the durable scrollback
store and tracks the alternate-screen status, which the model takes as
the `altAfter` argument (the status the appended escape codes produce). -/
structure OutputState where
  privateCommandLoopFlag : Bool
  outputBuffer : List Char
  altBufferActive : Bool
  maxOutputLines : Nat
  channelMode : ChannelMode
  sentWebsocket : List (List Char)
  sentRpc : List (List Char)
  saves : Nat
deriving DecidableEq, Repr

/-- Embedding of `ConsoleProcess::enqueOutputEvent`: an output event arriving while a
private sample is in progress clears the in-progress flag (the early
`return` is commented out in the source) and is then processed as normal
output: appended to the scrollback, persisted if the alternate-screen
status toggled, and delivered raw over the websocket or trimmed over RPC. -/
def enqueOutputEvent (st : OutputState) (output : List Char)
    (altAfter : Bool) : OutputState :=
  let st1 :=
    if st.privateCommandLoopFlag then
      { st with privateCommandLoopFlag := false }
    else st
  let currentAlt := st1.altBufferActive
  let st2 := { st1 with outputBuffer := st1.outputBuffer ++ output,
                        altBufferActive := altAfter }
  let st3 :=
    if altAfter ≠ currentAlt then { st2 with saves := st2.saves + 1 } else st2
  match st3.channelMode with
  | ChannelMode.websocket =>
    { st3 with sentWebsocket := st3.sentWebsocket ++ [output] }
  | ChannelMode.rpc =>
    { st3 with
      sentRpc := st3.sentRpc ++ [trimLeadingLines st3.maxOutputLines output] }

/- ===================================================================
   Derived relations and concrete instances used by the theorems
   =================================================================== -/

/-- Queue items ordered by sequence number (non-strict). -/
def seqLE (a b : Input) : Prop := a.sequence ≤ b.sequence

/-- Queue items ordered by sequence number (strict). -/
def seqLT (a b : Input) : Prop := a.sequence < b.sequence

/-- A single carriage return: contains a control character and fails the
prompt pattern. -/
def c1ControlInput : List Char := ['\x0d']

/-- The candidate `"foo\r  "`: contains a control character and matches
the prompt pattern. -/
def c2PromptShaped : List Char := ['f', 'o', 'o', '\x0d', ' ', ' ']

/-- Three spaces: no control characters, matches `^(.+)[\W_]( +)$` (the
first space feeds `.+`, the second is the `[\W_]` character, the third the
trailing run), but has no non-whitespace character at all. -/
def c3Spaces : List Char := [' ', ' ', ' ']

/-- The candidate `"user@host$  "` from the spec's P5. -/
def c3PromptExample : List Char :=
  ['u', 's', 'e', 'r', '@', 'h', 'o', 's', 't', '$', ' ', ' ']

/-- Constant payload for sequencer witnesses. -/
def xPayload : Nat → List Char := fun _ => ['x']

/-- Forty ordered arrivals with sequences 42 down to 3: a permanent gap at
sequence 2, arriving in reversed (out-of-order) order. -/
def c5Arrivals : List Input :=
  (List.range' 3 kAutoFlushLength).reverse.map (fun n => ordItem (xPayload n) n)

/-- A sampling state before any command: `pendingCommand_(true)`,
`lastEnterTime_`/`lastPrivateCommand_` not-a-date-time (constructor),
environment tracking on, no child processes, no sample in flight. -/
def c6Start : PrivState :=
  ⟨true, false, false, true, PTime.notADateTime, PTime.notADateTime⟩

/-- The state after the command `"ls\r"` is submitted at t = 0 ms. -/
def c6AfterCommand : PrivState := submitText c6Start ['l', 's', '\x0d'] 0

/-- A sampling state in which every gate passes at t = 1501 ms. -/
def c8State : PrivState :=
  ⟨true, false, false, false, PTime.fin 0, PTime.notADateTime⟩

/-- A session that never emitted a subprocs notification. -/
def c9Base : SubprocsState := ⟨false, false, [], 0, 0, 0⟩

/-- An output-pipeline state with a private sample in progress, on the RPC
channel. -/
def c10State : OutputState :=
  ⟨true, ['\x0a'], false, 5, ChannelMode.rpc, [], [], 0⟩

/- ===================================================================
   Theorems
   =================================================================== -/

/-- Projection `(maybeConsolePrompt s).promptHandled` is exactly the prompt-pattern
match: the control-character check influences only the flush list. -/
theorem maybeConsolePrompt_promptHandled (s : List Char) :
    (maybeConsolePrompt s).promptHandled = promptMatch s := by
  unfold maybeConsolePrompt
  cases h : promptMatch s <;> simp [h]

/-- Function `allSpaces` decides "every character is a space". -/
theorem allSpaces_eq_true_iff (l : List Char) :
    allSpaces l = true ↔ ∀ x ∈ l, x = ' ' := by
  induction l with
  | nil => simp [allSpaces]
  | cons c cs ih => simp [allSpaces, ih]

/-- Function `promptTail` decides "`[\W_]( +)` against the whole suffix". -/
theorem promptTail_eq_true_iff (l : List Char) :
    promptTail l = true ↔
      ∃ c sp, l = c :: sp ∧ promptSepChar c = true ∧ sp ≠ [] ∧
        ∀ x ∈ sp, x = ' ' := by
  cases l with
  | nil => simp [promptTail]
  | cons c sp =>
    simp only [promptTail, Bool.and_eq_true, Bool.not_eq_true',
      List.isEmpty_eq_false, allSpaces_eq_true_iff]
    constructor
    · rintro ⟨⟨hc, hne⟩, hsp⟩
      exact ⟨c, sp, rfl, hc, hne, hsp⟩
    · rintro ⟨c', sp', heq, hc, hne, hsp⟩
      obtain ⟨rfl, rfl⟩ : c = c' ∧ sp = sp' := by
        injection heq with h1 h2; exact ⟨h1, h2⟩
      exact ⟨⟨hc, hne⟩, hsp⟩

/-- Function `promptMatch` decides full-string matching of `^(.+)[\W_]( +)$`:
the string splits as a nonempty prefix, one non-alphanumeric character,
and a nonempty run of spaces ending the string. -/
theorem promptMatch_eq_true_iff (s : List Char) :
    promptMatch s = true ↔
      ∃ a c sp, s = a ++ c :: sp ∧ a ≠ [] ∧ promptSepChar c = true ∧
        sp ≠ [] ∧ ∀ x ∈ sp, x = ' ' := by
  unfold promptMatch
  induction s with
  | nil =>
    constructor
    · intro h; exact absurd h (by simp [promptMatchAux])
    · rintro ⟨a, c, sp, heq, hane, -⟩
      cases a <;> simp_all
  | cons d rest ih =>
    simp only [promptMatchAux, Bool.or_eq_true, promptTail_eq_true_iff, ih]
    constructor
    · rintro (⟨c, sp, rfl, hc, hne, hsp⟩ | ⟨a, c, sp, rfl, hane, hc, hne, hsp⟩)
      · exact ⟨[d], c, sp, rfl, by simp, hc, hne, hsp⟩
      · exact ⟨d :: a, c, sp, rfl, by simp, hc, hne, hsp⟩
    · rintro ⟨a, c, sp, heq, hane, hc, hne, hsp⟩
      cases a with
      | nil => exact absurd rfl hane
      | cons a0 atail =>
        obtain ⟨rfl, rfl⟩ : d = a0 ∧ rest = atail ++ c :: sp := by
          injection heq with h1 h2; exact ⟨h1, h2⟩
        cases atail with
        | nil => exact Or.inl ⟨c, sp, rfl, hc, hne, hsp⟩
        | cons b bt => exact Or.inr ⟨b :: bt, c, sp, rfl, by simp, hc, hne, hsp⟩

/-- C1: the claim "every disqualified candidate is flushed exactly once"
fails on the code.  A single carriage return is disqualified on both
counts (control character present, prompt shape failed), and because the
control-character `if` in `maybeConsolePrompt` does not return and the
shape `if` flushes again, the candidate is passed to `enqueOutputEvent`
twice.  (A control-character candidate that does match the shape is
flushed once — but is also handed to `handleConsolePrompt`, see C2.) -/
theorem control_char_double_flush :
    (maybeConsolePrompt c1ControlInput).flushed = [c1ControlInput, c1ControlInput]
    ∧ (maybeConsolePrompt c1ControlInput).flushed.length = 2
    ∧ (maybeConsolePrompt c1ControlInput).promptHandled = false := by decide

/-- C2: the claim "a candidate containing a carriage return or backspace is
never treated as a prompt" fails on the code.  `"foo\r  "` contains `\r`
and is flushed by the control-character branch, but it also matches
`^(.+)[\W_]( +)$` (the `\r` is a `\W` character), so the `else` of the
second `if` runs `handleConsolePrompt` as well, which with no custom
handler registered emits a prompt-detected client event. -/
theorem control_char_prompt_handled :
    hasControlChars c2PromptShaped = true
    ∧ (maybeConsolePrompt c2PromptShaped).promptHandled = true
    ∧ handleConsolePrompt none c2PromptShaped = PromptOutcome.promptEvent
    ∧ (maybeConsolePrompt c2PromptShaped).flushed = [c2PromptShaped] := by decide

/-- C3 counterexample: a string of three spaces has no control character
and does not have the spec's shape "one-or-more non-whitespace characters
followed by one-or-more trailing spaces" (it has no non-whitespace
character at all), yet the code classifies it as a prompt, because
`^(.+)[\W_]( +)$` is satisfied with a space as the `[\W_]` character. -/
theorem classify_shape_counterexample :
    hasControlChars c3Spaces = false
    ∧ specPromptShape c3Spaces = false
    ∧ (maybeConsolePrompt c3Spaces).promptHandled = true := by decide

/-- C3 (amended): for a candidate with no carriage-return/backspace
control character, the classifier treats it as a prompt iff it fully
matches `^(.+)[\W_]( +)$` — it splits as a nonempty prefix of arbitrary
characters, one non-alphanumeric character, and a nonempty run of trailing
spaces; in particular `"user@host$  "` is classified as a prompt. -/
theorem classify_prompt_iff (s : List Char) (h : hasControlChars s = false) :
    ((maybeConsolePrompt s).promptHandled = true ↔
      ∃ a c sp, s = a ++ c :: sp ∧ a ≠ [] ∧ promptSepChar c = true ∧
        sp ≠ [] ∧ ∀ x ∈ sp, x = ' ')
    ∧ (maybeConsolePrompt c3PromptExample).promptHandled = true := by
  refine ⟨?_, by decide⟩
  rw [maybeConsolePrompt_promptHandled]
  exact promptMatch_eq_true_iff s

/-- Witness for C3's amended theorem at `"user@host$  "`. -/
theorem classify_prompt_iff_witness :
    hasControlChars c3PromptExample = false
    ∧ (((maybeConsolePrompt c3PromptExample).promptHandled = true ↔
        ∃ a c sp, c3PromptExample = a ++ c :: sp ∧ a ≠ [] ∧
          promptSepChar c = true ∧ sp ≠ [] ∧ ∀ x ∈ sp, x = ' ')
       ∧ (maybeConsolePrompt c3PromptExample).promptHandled = true) :=
  ⟨by decide, classify_prompt_iff c3PromptExample (by decide)⟩

/-- C9: `reportCwd` with a changed working directory sets
`childProcsSent_ = true` as a side effect, so a following
`onHasSubprocs(b)` with `b` equal to the stored child-process value finds
`hasSubprocs != procInfo_->getHasChildProcs()` false and `childProcsSent_`
already true, and emits nothing — regardless of whether any subprocs
notification was ever emitted (the witness takes a session that emitted
none). -/
theorem reportCwd_masks_subprocs_notification (st : SubprocsState)
    (p : List Char) (hchange : st.cwd ≠ p) :
    (reportCwd st p).childProcsSent = true
    ∧ onHasSubprocs (reportCwd st p) ((reportCwd st p).hasChildProcs) =
        reportCwd st p
    ∧ (onHasSubprocs (reportCwd st p)
        ((reportCwd st p).hasChildProcs)).subprocsEvents = st.subprocsEvents := by
  have hrep : reportCwd st p =
      { st with cwd := p, cwdEvents := st.cwdEvents + 1,
                childProcsSent := true, saves := st.saves + 1 } := by
    unfold reportCwd
    rw [if_pos hchange]
  refine ⟨by rw [hrep], ?_, ?_⟩ <;> rw [hrep] <;> simp [onHasSubprocs]

/-- Witness for C9: a session that never sent a subprocs notification. -/
theorem reportCwd_masks_subprocs_notification_witness :
    (c9Base.cwd ≠ ['a'])
    ∧ ((reportCwd c9Base ['a']).childProcsSent = true
       ∧ onHasSubprocs (reportCwd c9Base ['a'])
           ((reportCwd c9Base ['a']).hasChildProcs) = reportCwd c9Base ['a']
       ∧ (onHasSubprocs (reportCwd c9Base ['a'])
           ((reportCwd c9Base ['a']).hasChildProcs)).subprocsEvents =
           c9Base.subprocsEvents) :=
  ⟨by decide, reportCwd_masks_subprocs_notification c9Base (['a']) (by decide)⟩

/-- C10: an output event arriving while a private sample is in progress
clears the in-progress flag but is otherwise processed exactly like
ordinary output — the whole result equals processing the same output with
the flag already clear, the text is appended to the scrollback buffer, and
it is delivered on whichever channel is negotiated (raw over the
websocket, trimmed over RPC) rather than suppressed. -/
theorem output_during_sample_processed_normally (st : OutputState)
    (output : List Char) (altAfter : Bool)
    (hflag : st.privateCommandLoopFlag = true) :
    (enqueOutputEvent st output altAfter).privateCommandLoopFlag = false
    ∧ enqueOutputEvent st output altAfter =
        enqueOutputEvent { st with privateCommandLoopFlag := false } output
          altAfter
    ∧ (enqueOutputEvent st output altAfter).outputBuffer =
        st.outputBuffer ++ output
    ∧ (st.channelMode = ChannelMode.websocket →
        (enqueOutputEvent st output altAfter).sentWebsocket =
          st.sentWebsocket ++ [output])
    ∧ (st.channelMode = ChannelMode.rpc →
        (enqueOutputEvent st output altAfter).sentRpc =
          st.sentRpc ++ [trimLeadingLines st.maxOutputLines output]) := by
  obtain ⟨flag, buf, alt, maxL, ch, sw, sr, sv⟩ := st
  simp only at hflag
  subst hflag
  cases ch <;>
    by_cases halt : altAfter ≠ alt <;>
      simp [enqueOutputEvent, halt]

/-- Witness for C10 on the RPC channel. -/
theorem output_during_sample_processed_normally_witness :
    c10State.privateCommandLoopFlag = true
    ∧ ((enqueOutputEvent c10State ['h', 'i'] false).privateCommandLoopFlag = false
       ∧ enqueOutputEvent c10State ['h', 'i'] false =
           enqueOutputEvent { c10State with privateCommandLoopFlag := false }
             ['h', 'i'] false
       ∧ (enqueOutputEvent c10State ['h', 'i'] false).outputBuffer =
           c10State.outputBuffer ++ ['h', 'i']
       ∧ (c10State.channelMode = ChannelMode.websocket →
           (enqueOutputEvent c10State ['h', 'i'] false).sentWebsocket =
             c10State.sentWebsocket ++ [['h', 'i']])
       ∧ (c10State.channelMode = ChannelMode.rpc →
           (enqueOutputEvent c10State ['h', 'i'] false).sentRpc =
             c10State.sentRpc ++
               [trimLeadingLines c10State.maxOutputLines ['h', 'i']])) :=
  ⟨by decide,
   output_during_sample_processed_normally c10State (['h', 'i']) false (by decide)⟩

/-- Invariant of repeated `start()` calls: an un-started session has never
launched, and the successful-launch count never exceeds one. -/
theorem startMany_launch_invariant :
    ∀ (errs : List (Option Nat)) (st : StartState),
      (st.started = false → st.launches = 0) → st.launches ≤ 1 →
      ((startMany st errs).started = false → (startMany st errs).launches = 0)
        ∧ (startMany st errs).launches ≤ 1 := by
  intro errs
  induction errs with
  | nil => exact fun st h1 h2 => ⟨h1, h2⟩
  | cons e rest ih =>
    intro st h1 h2
    have hstep : ((start st e).2.started = false → (start st e).2.launches = 0)
        ∧ (start st e).2.launches ≤ 1 := by
      unfold start
      by_cases hc : (st.started || st.zombie) = true
      · simp only [hc, if_pos]
        exact ⟨h1, h2⟩
      · have hs : st.started = false := by
          cases h : st.started
          · rfl
          · rw [h] at hc; simp at hc
        have h0 : st.launches = 0 := h1 hs
        simp only [Bool.not_eq_true] at hc
        rw [hc]
        cases e <;> simp [hs, h0]
    have hfold : startMany st (e :: rest) = startMany (start st e).2 rest := rfl
    rw [hfold]
    exact ih (start st e).2 hstep.1 hstep.2

/-- C7: `start()` is idempotent and atomic on failure — on an
already-started or zombie session it returns `Success()` untouched (no
supervisor call), across any sequence of calls from a fresh session the
underlying process launches (a supervisor call succeeds) at most once, and
a failed launch returns the supervisor's error unchanged with the session
still un-started. -/
theorem start_idempotent_atomic :
    (∀ (st : StartState) (e : Option Nat),
       st.started = true ∨ st.zombie = true → start st e = (none, st))
    ∧ (∀ errs : List (Option Nat),
        (startMany initialStartState errs).launches ≤ 1)
    ∧ (∀ (st : StartState) (e : Nat), st.started = false → st.zombie = false →
        (start st (some e)).1 = some e
        ∧ (start st (some e)).2.started = false
        ∧ (start st (some e)).2.launches = st.launches) := by
  refine ⟨?_, ?_, ?_⟩
  · intro st e hcond
    unfold start
    have : (st.started || st.zombie) = true := by
      rcases hcond with h | h <;> simp [h]
    rw [this]
    simp
  · intro errs
    exact (startMany_launch_invariant errs initialStartState
      (fun _ => rfl) (by simp [initialStartState])).2
  · intro st e hs hz
    unfold start
    rw [hs, hz]
    simp

/-- Witness for C7: a started session no-ops, two successful calls launch
once, and a failing launch leaves a fresh session un-started. -/
theorem start_idempotent_atomic_witness :
    (start ⟨true, false, 1, 1⟩ none = (none, ⟨true, false, 1, 1⟩))
    ∧ (startMany initialStartState [none, none, none]).launches ≤ 1
    ∧ ((start initialStartState (some 5)).1 = some 5
       ∧ (start initialStartState (some 5)).2.started = false
       ∧ (start initialStartState (some 5)).2.launches =
           initialStartState.launches) :=
  ⟨start_idempotent_atomic.1 ⟨true, false, 1, 1⟩ none (Or.inl rfl),
   start_idempotent_atomic.2.1 [none, none, none],
   start_idempotent_atomic.2.2 initialStartState 5 rfl rfl⟩

/-- Once `lastPrivateCommand_` holds `pos_infin`, no private sample is
ever attempted again: the minimum-interval gate
`currentTime - kPrivateCommandDelay <= lastPrivateCommand_` compares a
finite instant against positive infinity and always blocks. -/
theorem posInfin_never_attempts (st : PrivState) (t : Int) (wf : Bool)
    (hinf : st.lastPrivateCommand = PTime.posInfin) :
    (privateCommandLoop st t wf).attempted = false := by
  unfold privateCommandLoop
  split_ifs <;> simp_all [finLe, PTime.isNotADateTime]

/-- C6 counterexample: a command ending in a line terminator submitted at
t = 0 ms leaves `pendingCommand_` false and `lastEnterTime_` = 0, and with
no prior sample every other gate of the claim holds at t = 1500 ms (1.5 s
elapsed); yet the code attempts no sample, because
`currentTime - kWaitForCommandDelay <= lastEnterTime_` still blocks at
exactly 1.5 s.  One millisecond later the sample is attempted. -/
theorem idle_boundary_blocks_sample :
    c6AfterCommand.pendingCommand = false
    ∧ c6AfterCommand.lastEnterTime = PTime.fin 0
    ∧ c6AfterCommand.lastPrivateCommand = PTime.notADateTime
    ∧ c6AfterCommand.trackEnv = true
    ∧ c6AfterCommand.hasChildProcs = false
    ∧ c6AfterCommand.privateCommandLoopFlag = false
    ∧ (privateCommandLoop c6AfterCommand 1500 false).attempted = false
    ∧ (privateCommandLoop c6AfterCommand 1501 false).attempted = true := by
  decide

/-- C6 (amended): with environment tracking on, no child processes and no
sample in flight, a private sample is attempted iff every debounce gate
holds with strict inequalities: no command is pending submission, a
command was submitted at some time `e` with strictly more than the 1.5 s
idle interval elapsed since (a command submitted at t = 0 blocks any
sample at or before t = 1.5 s), and either no previous sample exists, or
the previous sample is strictly more than 3 s old and does not postdate
the last submitted command. -/
theorem sample_gates_iff (st : PrivState) (t : Int) (wf : Bool)
    (hTrack : st.trackEnv = true) (hChild : st.hasChildProcs = false)
    (hFlag : st.privateCommandLoopFlag = false) :
    (privateCommandLoop st t wf).attempted = true ↔
      st.pendingCommand = false
      ∧ ∃ e, st.lastEnterTime = PTime.fin e ∧ e + kWaitForCommandDelay < t
        ∧ (st.lastPrivateCommand = PTime.notADateTime
           ∨ ∃ p, st.lastPrivateCommand = PTime.fin p
               ∧ p + kPrivateCommandDelay < t ∧ p ≤ e) := by
  obtain ⟨tr, ch, fl, pend, le, lp⟩ := st
  simp only at hTrack hChild hFlag
  subst hTrack hChild hFlag
  cases pend
  · cases le with
    | notADateTime =>
      simp [privateCommandLoop, PTime.isNotADateTime]
    | fin e =>
      cases lp with
      | notADateTime =>
        simp only [privateCommandLoop, PTime.isNotADateTime, finLe, ptimeGT,
          kWaitForCommandDelay, kPrivateCommandDelay]
        split_ifs with h1 h2 h3 h4 h5 <;>
          cases wf <;>
            simp_all
      | fin p =>
        simp only [privateCommandLoop, PTime.isNotADateTime, finLe, ptimeGT,
          kWaitForCommandDelay, kPrivateCommandDelay]
        split_ifs with h1 h2 h3 h4 h5 <;>
          cases wf <;>
            simp_all
      | posInfin =>
        simp only [privateCommandLoop, PTime.isNotADateTime, finLe, ptimeGT,
          kWaitForCommandDelay, kPrivateCommandDelay]
        split_ifs with h1 h2 h3 h4 h5 <;>
          cases wf <;>
            simp_all
    | posInfin =>
      simp [privateCommandLoop, PTime.isNotADateTime, finLe]
  · simp [privateCommandLoop, PTime.isNotADateTime]

/-- Witness for C6's amended theorem: the post-command state at
t = 1501 ms. -/
theorem sample_gates_iff_witness :
    c6AfterCommand.trackEnv = true
    ∧ ((privateCommandLoop c6AfterCommand 1501 false).attempted = true ↔
        c6AfterCommand.pendingCommand = false
        ∧ ∃ e, c6AfterCommand.lastEnterTime = PTime.fin e
            ∧ e + kWaitForCommandDelay < 1501
            ∧ (c6AfterCommand.lastPrivateCommand = PTime.notADateTime
               ∨ ∃ p, c6AfterCommand.lastPrivateCommand = PTime.fin p
                   ∧ p + kPrivateCommandDelay < 1501 ∧ p ≤ e)) :=
  ⟨by decide,
   sample_gates_iff c6AfterCommand 1501 false (by decide) (by decide) (by decide)⟩

/-- C8: when the injected capture command's `writeToStdin` fails, the
call returns `false` with no error value surfaced (the error is only
logged), the in-progress flag is cleared, `lastPrivateCommand_` is set to
`pos_infin`, and consequently no later call ever attempts a private sample
again for this session.  The tick itself is unaffected: `onContinue` only
skips input processing when `privateCommandLoop` returns `true`, and
always finishes its tick with `continue`. -/
theorem sample_write_failure_disables_sampling (st : PrivState) (t : Int)
    (hAtt : (privateCommandLoop st t true).attempted = true) :
    privateCommandLoop st t true =
      ⟨false, true,
       { st with privateCommandLoopFlag := false,
                 lastPrivateCommand := PTime.posInfin }⟩
    ∧ ∀ (t2 : Int) (wf2 : Bool),
        (privateCommandLoop
          ((privateCommandLoop st t true).st) t2 wf2).attempted = false := by
  have hres : privateCommandLoop st t true =
      ⟨false, true,
       { st with privateCommandLoopFlag := false,
                 lastPrivateCommand := PTime.posInfin }⟩ := by
    unfold privateCommandLoop at hAtt ⊢
    split_ifs at hAtt ⊢ <;> simp_all
  refine ⟨hres, fun t2 wf2 => ?_⟩
  rw [hres]
  exact posInfin_never_attempts _ t2 wf2 rfl

/-- Witness for C8: all gates pass at t = 1501 ms and the write fails. -/
theorem sample_write_failure_disables_sampling_witness :
    (privateCommandLoop c8State 1501 true).attempted = true
    ∧ (privateCommandLoop c8State 1501 true =
        ⟨false, true,
         { c8State with privateCommandLoopFlag := false,
                        lastPrivateCommand := PTime.posInfin }⟩
       ∧ ∀ (t2 : Int) (wf2 : Bool),
           (privateCommandLoop
             ((privateCommandLoop c8State 1501 true).st) t2 wf2).attempted =
             false) :=
  ⟨by decide, sample_write_failure_disables_sampling c8State 1501 (by decide)⟩

/-- The ordered-insert loop produces a permutation of pushing the item on
front. -/
theorem insertOrdered_perm (i : Input) :
    ∀ l : List Input, List.Perm (insertOrdered i l) (i :: l) := by
  intro l
  induction l with
  | nil => simp [insertOrdered]
  | cons a rest ih =>
    unfold insertOrdered
    by_cases hlt : i.sequence < a.sequence
    · rw [if_pos hlt]
    · rw [if_neg hlt]
      exact (List.Perm.cons a ih).trans (List.Perm.swap i a rest)

/-- Ordered insert keeps the queue sorted by sequence. -/
theorem insertOrdered_sorted (i : Input) :
    ∀ l : List Input, List.Pairwise seqLE l →
      List.Pairwise seqLE (insertOrdered i l) := by
  intro l
  induction l with
  | nil => intro _; simp [insertOrdered, List.Pairwise]
  | cons a rest ih =>
    intro hp
    rw [List.pairwise_cons] at hp
    obtain ⟨ha, hrest⟩ := hp
    unfold insertOrdered
    by_cases hlt : i.sequence < a.sequence
    · rw [if_pos hlt]
      refine List.Pairwise.cons ?_ (List.Pairwise.cons ha hrest)
      intro x hx
      rcases List.mem_cons.mp hx with rfl | hx
      · exact le_of_lt hlt
      · exact le_trans (le_of_lt hlt) (ha x hx)
    · rw [if_neg hlt]
      refine List.Pairwise.cons ?_ (ih hrest)
      intro x hx
      have hx2 : x ∈ i :: rest := (insertOrdered_perm i rest).mem_iff.mp hx
      rcases List.mem_cons.mp hx2 with rfl | hx2
      · exact le_of_not_lt hlt
      · exact ha x hx2

/-- Enqueuing a batch of ordered (non-sentinel) items never touches
`lastInputSequence_`, keeps the queue sorted by sequence, and queues
exactly the batch. -/
theorem enqueAll_ordered :
    ∀ (items : List Input) (q : List Input) (ls : Int),
      (∀ i ∈ items, i.sequence ≠ kIgnoreSequence ∧ i.sequence ≠ kFlushSequence) →
      List.Pairwise seqLE q →
      List.Perm (enqueAll ⟨q, ls⟩ items).inputQueue (q ++ items)
      ∧ List.Pairwise seqLE (enqueAll ⟨q, ls⟩ items).inputQueue
      ∧ (enqueAll ⟨q, ls⟩ items).lastInputSequence = ls := by
  intro items
  induction items with
  | nil => intro q ls _ hq; exact ⟨by simp [enqueAll], hq, rfl⟩
  | cons i rest ih =>
    intro q ls hsent hq
    have hi := hsent i (List.mem_cons_self i rest)
    have hstep : enqueInput ⟨q, ls⟩ i = ⟨insertOrdered i q, ls⟩ := by
      unfold enqueInput
      rw [if_neg hi.1, if_neg hi.2]
    have hfold : enqueAll ⟨q, ls⟩ (i :: rest) =
        enqueAll ⟨insertOrdered i q, ls⟩ rest := by
      show enqueAll (enqueInput ⟨q, ls⟩ i) rest = _
      rw [hstep]
    rw [hfold]
    have hrest : ∀ j ∈ rest, j.sequence ≠ kIgnoreSequence ∧
        j.sequence ≠ kFlushSequence :=
      fun j hj => hsent j (List.mem_cons_of_mem i hj)
    obtain ⟨hperm, hsort, hls⟩ :=
      ih (insertOrdered i q) ls hrest (insertOrdered_sorted i q hq)
    refine ⟨?_, hsort, hls⟩
    exact hperm.trans
      (((insertOrdered_perm i q).append_right rest).trans List.perm_middle.symm)

/-- Draining a gap-free queue `k+1, k+2, ...` with `lastInputSequence_ = k`
returns exactly the queue, in order: each head matches
`lastInputSequence_ + 1` and advances the counter by one. -/
theorem drainFuel_run (f : Nat → List Char) :
    ∀ (m k : Nat),
      drainFuel m
        ⟨(List.range' (k + 1) m).map (fun n => ordItem (f n) n), (k : Int)⟩
      = (List.range' (k + 1) m).map (fun n => ordItem (f n) n) := by
  intro m
  induction m with
  | zero => intro k; simp [drainFuel]
  | succ m ih =>
    intro k
    rw [List.range'_succ, List.map_cons]
    have hnot : ¬((ordItem (f (k + 1)) (k + 1)).sequence = kIgnoreSequence ∨
        (ordItem (f (k + 1)) (k + 1)).sequence = kFlushSequence) := by
      simp only [ordItem, kIgnoreSequence, kFlushSequence]
      omega
    have hnext : (ordItem (f (k + 1)) (k + 1)).sequence = (k : Int) + 1 := by
      simp [ordItem]
    have hdeq : dequeInput
        ⟨ordItem (f (k + 1)) (k + 1) ::
          (List.range' (k + 1 + 1) m).map (fun n => ordItem (f n) n), (k : Int)⟩ =
        (some (ordItem (f (k + 1)) (k + 1)),
         ⟨(List.range' (k + 1 + 1) m).map (fun n => ordItem (f n) n),
          (k : Int) + 1⟩) := by
      unfold dequeInput
      simp only
      rw [if_neg hnot, if_pos hnext]
    show drainFuel (m + 1) _ = _
    unfold drainFuel
    rw [hdeq]
    dsimp only
    have hcast : ((k : Int) + 1) = ((k + 1 : Nat) : Int) := by push_cast; ring
    rw [hcast, ih (k + 1)]

/-- C4: for every `N` below the auto-flush threshold, items with distinct
sequence numbers `1..N` and arbitrary payloads, enqueued in any arrival
order with no sentinels interleaved, are dequeued exactly as the items
`1..N` in sequence order — each exactly once, independent of the arrival
permutation. -/
theorem ordered_dequeue_in_sequence (N : Nat) (hN : N < kAutoFlushLength)
    (f : Nat → List Char) (perm : List Nat)
    (hperm : List.Perm perm (List.range' 1 N)) :
    drainAll (enqueAll initialInputState
        (perm.map (fun n => ordItem (f n) n)))
      = (List.range' 1 N).map (fun n => ordItem (f n) n) := by
  have hone : ∀ n ∈ perm, 1 ≤ n := by
    intro n hn
    have : n ∈ List.range' 1 N := hperm.subset hn
    rcases List.mem_range'.mp this with ⟨i, _, rfl⟩
    omega
  have hsent : ∀ i ∈ perm.map (fun n => ordItem (f n) n),
      i.sequence ≠ kIgnoreSequence ∧ i.sequence ≠ kFlushSequence := by
    intro i hi
    rcases List.mem_map.mp hi with ⟨n, hn, rfl⟩
    have := hone n hn
    simp only [ordItem, kIgnoreSequence, kFlushSequence]
    constructor <;> omega
  rw [show initialInputState = (⟨[], kIgnoreSequence⟩ : InputQueueState) from rfl]
  obtain ⟨hQperm, hQsort, hQls⟩ :=
    enqueAll_ordered (perm.map (fun n => ordItem (f n) n)) [] kIgnoreSequence
      hsent List.Pairwise.nil
  rw [List.nil_append] at hQperm
  have hQperm2 : List.Perm
      (enqueAll ⟨[], kIgnoreSequence⟩
        (perm.map (fun n => ordItem (f n) n))).inputQueue
      ((List.range' 1 N).map (fun n => ordItem (f n) n)) :=
    hQperm.trans (hperm.map (fun n => ordItem (f n) n))
  have hnodupP : perm.Nodup := hperm.nodup_iff.mpr (List.nodup_range' 1 N)
  have hcomp : (Input.sequence ∘ fun n => ordItem (f n) n) =
      (fun n : Nat => ((n : Int))) := by
    funext n; rfl
  have h1 : List.Perm
      ((enqueAll ⟨[], kIgnoreSequence⟩
        (perm.map (fun n => ordItem (f n) n))).inputQueue.map Input.sequence)
      (perm.map (fun n : Nat => ((n : Int)))) := by
    have h2 := hQperm.map Input.sequence
    rwa [List.map_map, hcomp] at h2
  have hcastinj : Function.Injective (fun n : Nat => ((n : Int))) := by
    intro a b hab
    simp only at hab
    exact_mod_cast hab
  have hnodupQ : ((enqueAll ⟨[], kIgnoreSequence⟩
      (perm.map (fun n => ordItem (f n) n))).inputQueue.map
        Input.sequence).Nodup :=
    h1.nodup_iff.mpr (hnodupP.map hcastinj)
  have hQlt : List.Pairwise seqLT
      (enqueAll ⟨[], kIgnoreSequence⟩
        (perm.map (fun n => ordItem (f n) n))).inputQueue := by
    have hne := List.pairwise_map.mp hnodupQ
    exact (hQsort.and hne).imp fun h => lt_of_le_of_ne h.1 h.2
  have htargetlt : List.Pairwise seqLT
      ((List.range' 1 N).map (fun n => ordItem (f n) n)) := by
    refine List.Pairwise.map _ ?_ (List.pairwise_lt_range' 1 N)
    intro a b hab
    simp only [seqLT, ordItem]
    exact_mod_cast hab
  haveI : IsAntisymm Input seqLT :=
    ⟨fun a b h1 h2 => absurd (lt_trans h1 h2) (lt_irrefl _)⟩
  have hQeq : (enqueAll ⟨[], kIgnoreSequence⟩
      (perm.map (fun n => ordItem (f n) n))).inputQueue =
      (List.range' 1 N).map (fun n => ordItem (f n) n) :=
    List.eq_of_perm_of_sorted hQperm2 hQlt htargetlt
  have heta : enqueAll (⟨[], kIgnoreSequence⟩ : InputQueueState)
      (perm.map (fun n => ordItem (f n) n)) =
      ⟨(enqueAll ⟨[], kIgnoreSequence⟩
          (perm.map (fun n => ordItem (f n) n))).inputQueue,
       (enqueAll ⟨[], kIgnoreSequence⟩
          (perm.map (fun n => ordItem (f n) n))).lastInputSequence⟩ := rfl
  rw [heta, hQeq, hQls]
  have h0 : kIgnoreSequence = ((0 : Nat) : Int) := by simp [kIgnoreSequence]
  rw [h0]
  unfold drainAll
  simp only [List.length_map, List.length_range']
  have hrun := drainFuel_run f N 0
  simpa using hrun

/-- Witness for C4: sequences 1 and 2 arriving reversed dequeue as 1, 2. -/
theorem ordered_dequeue_in_sequence_witness :
    (2 < kAutoFlushLength ∧ List.Perm [2, 1] (List.range' 1 2))
    ∧ drainAll (enqueAll initialInputState
        ([2, 1].map (fun n => ordItem (xPayload n) n)))
        = (List.range' 1 2).map (fun n => ordItem (xPayload n) n) :=
  ⟨⟨by decide, by decide⟩,
   ordered_dequeue_in_sequence 2 (by decide) xPayload [2, 1] (by decide)⟩

/-- The auto-flush loop's `lastInputSequence_` walk lands on a sequence of
some queued item. -/
theorem foldl_lastSeq_mem :
    ∀ (l : List Input) (d : Int), l ≠ [] →
      l.foldl (fun _ i => i.sequence) d ∈ l.map Input.sequence := by
  intro l
  induction l with
  | nil => intro d hd; exact absurd rfl hd
  | cons a rest ih =>
    intro d _
    show rest.foldl (fun _ i => i.sequence) a.sequence ∈ _
    cases hrest : rest with
    | nil => simp
    | cons b bt =>
      rw [List.map_cons]
      refine List.mem_cons_of_mem _ ?_
      have := ih a.sequence (by simp [hrest])
      rwa [hrest] at this

/-- In a queue sorted by sequence, the auto-flush walk's final value (the
last item's sequence) bounds every queued sequence. -/
theorem foldl_lastSeq_ge :
    ∀ (l : List Input) (d : Int), List.Pairwise seqLE l →
      ∀ x ∈ l, x.sequence ≤ l.foldl (fun _ i => i.sequence) d := by
  intro l
  induction l with
  | nil => intro d _ x hx; exact absurd hx (List.not_mem_nil x)
  | cons a rest ih =>
    intro d hp x hx
    rw [List.pairwise_cons] at hp
    obtain ⟨ha, hrest⟩ := hp
    show x.sequence ≤ rest.foldl (fun _ i => i.sequence) a.sequence
    rcases List.mem_cons.mp hx with rfl | hx2
    · cases hr : rest with
      | nil => simp
      | cons b bt =>
        rw [← hr]
        have hmem : rest.foldl (fun _ i => i.sequence) x.sequence ∈
            rest.map Input.sequence := foldl_lastSeq_mem rest _ (by simp [hr])
        rcases List.mem_map.mp hmem with ⟨y, hy, hyeq⟩
        rw [← hyeq]
        exact ha y hy
    · exact ih a.sequence hrest x hx2

/-- C5: after sequence 1 is consumed (`lastInputSequence_ = 1`) and the
fragment with sequence 2 is permanently lost, enqueuing
`kAutoFlushLength` (40) further ordered items with sequences ≥ 3, in any
arrival order, makes the next dequeue return an item rather than empty:
the auto-flush branch fires, every remaining queued item is marked
Unordered in place, and `lastInputSequence_` becomes the last observed
(i.e. the largest) queued sequence. -/
theorem autoflush_guarantees_progress (i1 : Input) (h1 : i1.sequence = 1)
    (arrivals : List Input)
    (hlen : arrivals.length = kAutoFlushLength)
    (hseq : ∀ i ∈ arrivals, 3 ≤ i.sequence) :
    (dequeInput (enqueInput initialInputState i1)).2 =
      (⟨[], 1⟩ : InputQueueState)
    ∧ ((dequeInput (enqueAll ⟨[], 1⟩ arrivals)).1.isSome = true
       ∧ (∀ j ∈ (dequeInput (enqueAll ⟨[], 1⟩ arrivals)).2.inputQueue,
            j.sequence = kIgnoreSequence)
       ∧ ∃ s, s ∈ arrivals.map Input.sequence
           ∧ (dequeInput (enqueAll ⟨[], 1⟩ arrivals)).2.lastInputSequence = s
           ∧ ∀ u ∈ arrivals.map Input.sequence, u ≤ s) := by
  constructor
  · simp [enqueInput, initialInputState, insertOrdered, dequeInput, h1,
      kIgnoreSequence, kFlushSequence]
  · have hsent : ∀ i ∈ arrivals,
        i.sequence ≠ kIgnoreSequence ∧ i.sequence ≠ kFlushSequence := by
      intro i hi
      have := hseq i hi
      simp only [kIgnoreSequence, kFlushSequence]
      constructor <;> omega
    obtain ⟨hQperm, hQsort, hQls⟩ :=
      enqueAll_ordered arrivals [] 1 hsent List.Pairwise.nil
    rw [List.nil_append] at hQperm
    set E := enqueAll (⟨[], 1⟩ : InputQueueState) arrivals with hEdef
    have hlenQ : E.inputQueue.length = kAutoFlushLength := by
      rw [hQperm.length_eq, hlen]
    cases hq : E.inputQueue with
    | nil => rw [hq] at hlenQ; simp [kAutoFlushLength] at hlenQ
    | cons q0 qrest =>
      have hE : E = ⟨q0 :: qrest, 1⟩ := by
        rw [show E = ⟨E.inputQueue, E.lastInputSequence⟩ from rfl, hq, hQls]
      have hq0arr : q0 ∈ arrivals := by
        refine hQperm.subset ?_
        rw [hq]
        exact List.mem_cons_self q0 qrest
      have h3 : 3 ≤ q0.sequence := hseq q0 hq0arr
      have cond1 : ¬(q0.sequence = kIgnoreSequence ∨
          q0.sequence = kFlushSequence) := by
        simp only [kIgnoreSequence, kFlushSequence]
        omega
      have cond2 : ¬(q0.sequence = 1 + 1) := by omega
      have cond3 : kAutoFlushLength ≤ (q0 :: qrest).length := by
        rw [← hq, hlenQ]
      have hdeq : dequeInput ⟨q0 :: qrest, 1⟩ =
          (some (setIgnore q0),
           ⟨qrest.map setIgnore,
            (q0 :: qrest).foldl (fun _ i => i.sequence) 1⟩) := by
        unfold dequeInput
        simp only
        rw [if_neg cond1, if_neg cond2, if_pos cond3]
      rw [hE, hdeq]
      refine ⟨rfl, ?_, ?_⟩
      · intro j hj
        rcases List.mem_map.mp hj with ⟨y, _, rfl⟩
        rfl
      · refine ⟨(q0 :: qrest).foldl (fun _ i => i.sequence) 1, ?_, rfl, ?_⟩
        · have hmem := foldl_lastSeq_mem (q0 :: qrest) 1 (by simp)
          rcases List.mem_map.mp hmem with ⟨y, hy, hyeq⟩
          refine List.mem_map.mpr ⟨y, ?_, hyeq⟩
          refine hQperm.subset ?_
          rw [hq]
          exact hy
        · intro u hu
          rcases List.mem_map.mp hu with ⟨x, hx, rfl⟩
          have hxQ : x ∈ q0 :: qrest := by
            rw [← hq]
            exact hQperm.mem_iff.mpr hx
          have hsortQ : List.Pairwise seqLE (q0 :: qrest) := by
            rw [← hq]
            exact hQsort
          exact foldl_lastSeq_ge (q0 :: qrest) 1 hsortQ x hxQ

/-- Witness for C5: sequence 1 consumed, then the forty items of
`c5Arrivals` (sequences 42 down to 3) enqueued out of order. -/
theorem autoflush_guarantees_progress_witness :
    ((ordItem (xPayload 1) 1).sequence = 1
     ∧ c5Arrivals.length = kAutoFlushLength
     ∧ ∀ i ∈ c5Arrivals, 3 ≤ i.sequence)
    ∧ ((dequeInput (enqueInput initialInputState (ordItem (xPayload 1) 1))).2 =
        (⟨[], 1⟩ : InputQueueState)
       ∧ ((dequeInput (enqueAll ⟨[], 1⟩ c5Arrivals)).1.isSome = true
          ∧ (∀ j ∈ (dequeInput (enqueAll ⟨[], 1⟩ c5Arrivals)).2.inputQueue,
               j.sequence = kIgnoreSequence)
          ∧ ∃ s, s ∈ c5Arrivals.map Input.sequence
              ∧ (dequeInput (enqueAll ⟨[], 1⟩ c5Arrivals)).2.lastInputSequence = s
              ∧ ∀ u ∈ c5Arrivals.map Input.sequence, u ≤ s)) :=
  ⟨⟨by decide, by decide, by decide⟩,
   autoflush_guarantees_progress (ordItem (xPayload 1) 1) (by decide)
     c5Arrivals (by decide) (by decide)⟩
